import Mathlib

/-!
Verification of the semantic-model resolution core of the repository
(`skills/snowflake/semantic-view-optimization/scripts/`): identifier
mapping (`semantic_view_sql_utils.py`), SQL rewriting over a parsed
syntax tree, relationship inference (`relationship_creation.py`) and
primary-key inference (`infer_primary_keys.py`).

Python strings are modelled as `String`; Python's `str.lower`/`str.upper`
are modelled with `Char.toLower`/`Char.toUpper` (ASCII case mapping)
applied characterwise.  Python `dict` is modelled as an association list
with insertion-order semantics: inserting an existing key overwrites the
value in place, inserting a fresh key appends.  Database access is
modelled by passing the measured quantities (null rates, cardinalities)
as function arguments.
-/

namespace SemanticCore

/-- Model of Python `str.lower` (ASCII case mapping applied characterwise). -/
def lowerStr (s : String) : String := ⟨s.data.map Char.toLower⟩

/-- Model of Python `str.upper` (ASCII case mapping applied characterwise). -/
def upperStr (s : String) : String := ⟨s.data.map Char.toUpper⟩

/-- Helper of `containsTok`: `pat` is a prefix of some suffix of the list. -/
def containsTokAux (pat : List Char) : List Char → Bool
  | [] => pat.isEmpty
  | c :: rest => pat.isPrefixOf (c :: rest) || containsTokAux pat rest

/-- Test that `pat` occurs as a contiguous substring of `s` (Python's
`pat in s`). -/
def containsTok (s pat : String) : Bool :=
  containsTokAux pat.data s.data

/-- Python's `str.endswith` over the underlying character lists. -/
def endsWithTok (s pat : String) : Bool := pat.data.isSuffixOf s.data

/-- Helper of `splitDot` over the character list. -/
def splitDotChars : List Char → List (List Char)
  | [] => [[]]
  | c :: rest =>
    let r := splitDotChars rest
    if c = '.' then [] :: r
    else
      match r with
      | h :: t => (c :: h) :: t
      | [] => [[c]]

/-- Python's `s.split(".")`. -/
def splitDot (s : String) : List String :=
  (splitDotChars s.data).map (fun l => ⟨l⟩)

/-- Python `dict` lookup (`m[k]` / `m.get(k)`); keys are unique in a dict,
so first match suffices. -/
def dget {β : Type} (m : List (String × β)) (k : String) : Option β :=
  (m.find? (fun p => p.1 == k)).map (·.2)

/-- Python `dict` insertion `m[k] = v`: overwrite in place if the key is
present, append otherwise. -/
def dinsert {β : Type} (m : List (String × β)) (k : String) (v : β) :
    List (String × β) :=
  if m.any (fun p => p.1 == k) then
    m.map (fun p => if p.1 == k then (k, v) else p)
  else m ++ [(k, v)]

/-- Keys of a modelled dict, in order. -/
def dkeys {β : Type} (m : List (String × β)) : List String := m.map (·.1)

/-! ## Identifier mapping (`semantic_view_sql_utils.py`) -/

/-- A `base_table` physical reference; absent fields are modelled as `""`
(Python's `.get(..., "")`). -/
structure BaseTable where
  database : String
  schema : String
  table : String
  deriving DecidableEq

/-- A column entry of one of the column sections; absent `name`/`expr` are
modelled as `""`. -/
structure ColumnDef where
  name : String
  expr : String
  deriving DecidableEq

/-- A table of the semantic-model document as consumed by the mapping
builders.  `base_table = none` models an absent or empty (falsy)
`base_table` dict; an absent `name` is modelled as `""`. -/
structure ModelTable where
  name : String
  base_table : Option BaseTable
  dimensions : List ColumnDef
  time_dimensions : List ColumnDef
  measures : List ColumnDef
  facts : List ColumnDef
  metrics : List ColumnDef
  deriving DecidableEq

/-- The semantic-model document (its `tables` list). -/
structure SemanticModel where
  tables : List ModelTable
  deriving DecidableEq

/-- The physical FQN `f"{database}.{schema}.{table_name}"`. -/
def fqnOf (bt : BaseTable) : String :=
  bt.database ++ "." ++ bt.schema ++ "." ++ bt.table

/-- The guard of the mapping builders: `logical_name` truthy, `base_table`
truthy, and all three physical parts non-empty. -/
def completeEntry (name : String) (bt : BaseTable) : Bool :=
  name != "" && (bt.database != "" && (bt.schema != "" && bt.table != ""))

/-- Model of `build_logical_to_physical_mapping`: logical table name → physical FQN. -/
def build_logical_to_physical_mapping (m : SemanticModel) :
    List (String × String) :=
  m.tables.foldl
    (fun mapping t =>
      match t.base_table with
      | none => mapping
      | some bt =>
        if completeEntry t.name bt then dinsert mapping t.name (fqnOf bt)
        else mapping)
    []

/-- Model of `build_physical_to_logical_mapping`: physical FQN → logical table name. -/
def build_physical_to_logical_mapping (m : SemanticModel) :
    List (String × String) :=
  m.tables.foldl
    (fun mapping t =>
      match t.base_table with
      | none => mapping
      | some bt =>
        if completeEntry t.name bt then dinsert mapping (fqnOf bt) t.name
        else mapping)
    []

/-- The per-table column dict built by the column-mapping builders: iterate
the five sections in order and keep entries with non-empty `name` and
`expr`; forward direction keys by `name`. -/
def tableColumnsL2P (t : ModelTable) : List (String × String) :=
  (t.dimensions ++ t.time_dimensions ++ t.measures ++ t.facts ++
      t.metrics).foldl
    (fun acc c =>
      if c.name != "" && c.expr != "" then dinsert acc c.name c.expr else acc)
    []

/-- Model of `build_logical_to_physical_column_mapping`:
`{table_name: {column_name: physical_expression}}`.  Note: it is built from
every table with a truthy `name` and at least one usable column entry,
independently of `base_table`. -/
def build_logical_to_physical_column_mapping (m : SemanticModel) :
    List (String × List (String × String)) :=
  m.tables.foldl
    (fun acc t =>
      if t.name != "" then
        let tc := tableColumnsL2P t
        if !tc.isEmpty then dinsert acc t.name tc else acc
      else acc)
    []

/-- Model of `case_insensitive_lookup`: try the key as given, lower-cased, then
upper-cased. -/
def case_insensitive_lookup (key : String) (mapping : List (String × String)) :
    Option String :=
  match dget mapping key with
  | some v => some v
  | none =>
    match dget mapping (lowerStr key) with
    | some v => some v
    | none => dget mapping (upperStr key)

/-- Model of `case_insensitive_column_lookup` (same algorithm, over a per-table
column dict). -/
def case_insensitive_column_lookup (column_name : String)
    (columns_dict : List (String × String)) : Option String :=
  match dget columns_dict column_name with
  | some v => some v
  | none =>
    match dget columns_dict (lowerStr column_name) with
    | some v => some v
    | none => dget columns_dict (upperStr column_name)

/-! ## SQL syntax tree and rewriting (`semantic_view_sql_utils.py`)

The rewriters operate on a tree produced by an external SQL parser
(sqlglot).  The tree is modelled by `SqlExpr` below: table reference
nodes, column reference nodes, SELECT nodes (carrying their WITH-clause
CTEs and the FROM-clause expression) and generic interior nodes.  Absent
string parts (`catalog`, `db`, alias, column qualifier) are modelled as
`""`, which is how sqlglot's accessor properties report them. -/

/-- An `exp.Table` reference node. -/
structure TableNode where
  catalog : String
  db : String
  name : String
  tblAlias : String
  deriving DecidableEq

/-- An `exp.Column` reference node: optional table qualifier and column
name. -/
structure ColumnNode where
  table : String
  name : String
  deriving DecidableEq

/-- The modelled SQL syntax tree. -/
inductive SqlExpr where
  | tbl (t : TableNode)
  | col (c : ColumnNode)
  | sel (ctes : List (String × SqlExpr)) (fromTable : Option SqlExpr)
      (others : List SqlExpr)
  | node (children : List SqlExpr)

mutual

/-- Model of `collect_cte_names`: the aliases of every CTE found anywhere in the
statement (skipping falsy aliases). -/
def collectCteNames : SqlExpr → List String
  | .tbl _ => []
  | .col _ => []
  | .sel ctes ft others =>
    collectCteNamesCtes ctes ++ collectCteNamesOpt ft ++
      collectCteNamesList others
  | .node cs => collectCteNamesList cs

/-- CTE list helper of `collectCteNames`. -/
def collectCteNamesCtes : List (String × SqlExpr) → List String
  | [] => []
  | (a, b) :: rest =>
    (if a != "" then [a] else []) ++ collectCteNames b ++
      collectCteNamesCtes rest

/-- Option helper of `collectCteNames`. -/
def collectCteNamesOpt : Option SqlExpr → List String
  | none => []
  | some e => collectCteNames e

/-- List helper of `collectCteNames`. -/
def collectCteNamesList : List SqlExpr → List String
  | [] => []
  | e :: es => collectCteNames e ++ collectCteNamesList es

end

mutual

/-- All `exp.Table` nodes of the statement (`find_all(exp.Table)`). -/
def collectTables : SqlExpr → List TableNode
  | .tbl t => [t]
  | .col _ => []
  | .sel ctes ft others =>
    collectTablesCtes ctes ++ collectTablesOpt ft ++ collectTablesList others
  | .node cs => collectTablesList cs

/-- CTE list helper of `collectTables`. -/
def collectTablesCtes : List (String × SqlExpr) → List TableNode
  | [] => []
  | (_, b) :: rest => collectTables b ++ collectTablesCtes rest

/-- Option helper of `collectTables`. -/
def collectTablesOpt : Option SqlExpr → List TableNode
  | none => []
  | some e => collectTables e

/-- List helper of `collectTables`. -/
def collectTablesList : List SqlExpr → List TableNode
  | [] => []
  | e :: es => collectTables e ++ collectTablesList es

end

mutual

/-- Apply `f` to every table node of the tree (the in-place mutation of
the Python `for table_node in parsed.find_all(exp.Table)` loop). -/
def mapTablesE (f : TableNode → TableNode) : SqlExpr → SqlExpr
  | .tbl t => .tbl (f t)
  | .col c => .col c
  | .sel ctes ft others =>
    .sel (mapTablesCtes f ctes) (mapTablesOpt f ft) (mapTablesList f others)
  | .node cs => .node (mapTablesList f cs)

/-- CTE list helper of `mapTablesE`. -/
def mapTablesCtes (f : TableNode → TableNode) :
    List (String × SqlExpr) → List (String × SqlExpr)
  | [] => []
  | (a, b) :: rest => (a, mapTablesE f b) :: mapTablesCtes f rest

/-- Option helper of `mapTablesE`. -/
def mapTablesOpt (f : TableNode → TableNode) : Option SqlExpr → Option SqlExpr
  | none => none
  | some e => some (mapTablesE f e)

/-- List helper of `mapTablesE`. -/
def mapTablesList (f : TableNode → TableNode) : List SqlExpr → List SqlExpr
  | [] => []
  | e :: es => mapTablesE f e :: mapTablesList f es

end

/-- The name of the FROM-clause table of a SELECT, when the FROM clause is
a plain table reference (`from_clause.this` being an `exp.Table`). -/
def fromTableName : Option SqlExpr → Option String
  | some (.tbl t) => some t.name
  | _ => none

mutual

/-- Apply `f` to every column node, passing down the name of the
FROM-clause table of the nearest enclosing SELECT (the context used by the
Python `is_referencing_cte` parent walk). -/
def mapColumnsE (f : Option String → ColumnNode → ColumnNode) :
    Option String → SqlExpr → SqlExpr
  | ctx, .col c => .col (f ctx c)
  | _, .tbl t => .tbl t
  | _, .sel ctes ft others =>
    let newCtx := fromTableName ft
    .sel (mapColumnsCtes f newCtx ctes) (mapColumnsOpt f newCtx ft)
      (mapColumnsList f newCtx others)
  | ctx, .node cs => .node (mapColumnsList f ctx cs)

/-- CTE list helper of `mapColumnsE`. -/
def mapColumnsCtes (f : Option String → ColumnNode → ColumnNode) :
    Option String → List (String × SqlExpr) → List (String × SqlExpr)
  | _, [] => []
  | ctx, (a, b) :: rest => (a, mapColumnsE f ctx b) :: mapColumnsCtes f ctx rest

/-- Option helper of `mapColumnsE`. -/
def mapColumnsOpt (f : Option String → ColumnNode → ColumnNode) :
    Option String → Option SqlExpr → Option SqlExpr
  | _, none => none
  | ctx, some e => some (mapColumnsE f ctx e)

/-- List helper of `mapColumnsE`. -/
def mapColumnsList (f : Option String → ColumnNode → ColumnNode) :
    Option String → List SqlExpr → List SqlExpr
  | _, [] => []
  | ctx, e :: es => mapColumnsE f ctx e :: mapColumnsList f ctx es

end

/-- Model of `is_already_qualified`: catalog and schema both present. -/
def is_already_qualified (t : TableNode) : Bool :=
  t.catalog != "" && t.db != ""

/-- Model of `build_fqn_from_table_node`. -/
def build_fqn_from_table_node (t : TableNode) : String :=
  if t.catalog != "" && (t.db != "" && t.name != "") then
    t.catalog ++ "." ++ t.db ++ "." ++ t.name
  else if t.db != "" && t.name != "" then t.db ++ "." ++ t.name
  else if t.name != "" then t.name
  else ""

/-- The loop body of `resolve_logical_to_physical_table_names` for one
table node. -/
def tblRewriteL2P (cteNames : List String) (mapping : List (String × String))
    (t : TableNode) : TableNode :=
  if t.name = "" || cteNames.contains t.name then t
  else if is_already_qualified t then t
  else
    match case_insensitive_lookup t.name mapping with
    | some physical_fqn =>
      match splitDot physical_fqn with
      | [a, b, c] => { t with catalog := a, db := b, name := c }
      | _ => t
    | none => t

/-- The loop body of `resolve_physical_to_logical_table_names` for one
table node. -/
def tblRewriteP2L (cteNames : List String)
    (reverse_mapping : List (String × String)) (t : TableNode) : TableNode :=
  if t.name = "" || cteNames.contains t.name then t
  else
    let fqn := build_fqn_from_table_node t
    if fqn = "" then t
    else
      match case_insensitive_lookup fqn reverse_mapping with
      | some logical_name =>
        { catalog := "", db := "", name := logical_name,
          tblAlias := t.tblAlias }
      | none => t

/-- The table pass of `resolve_logical_to_physical_table_names` on a parsed
tree. -/
def resolveL2PTablesAst (tree : SqlExpr) (mapping : List (String × String)) :
    SqlExpr :=
  mapTablesE (tblRewriteL2P (collectCteNames tree) mapping) tree

/-- The table pass of `resolve_physical_to_logical_table_names` on a parsed
tree. -/
def resolveP2LTablesAst (tree : SqlExpr)
    (reverse_mapping : List (String × String)) : SqlExpr :=
  mapTablesE (tblRewriteP2L (collectCteNames tree) reverse_mapping) tree

/-- The `reverse_table_mapping` dict built inside
`resolve_logical_to_physical_column_names`: for each `(logical, physical)`
item insert `physical → logical`, `logical → logical`, and (for a 3-part
FQN) `bare physical table name → logical`. -/
def reverseTableMappingOf (table_mapping : List (String × String)) :
    List (String × String) :=
  table_mapping.foldl
    (fun acc p =>
      let acc1 := dinsert acc p.2 p.1
      let acc2 := dinsert acc1 p.1 p.1
      match splitDot p.2 with
      | [_, _, c] => dinsert acc2 c p.1
      | _ => acc2)
    []

/-- The `logical_table_mapping` dict built inside
`resolve_physical_to_logical_column_names`: for each `(physical, logical)`
item insert `physical → logical`, `logical → logical`, and (for a 3-part
FQN) `bare physical table name → logical`. -/
def logicalTableMappingOf (table_mapping : List (String × String)) :
    List (String × String) :=
  table_mapping.foldl
    (fun acc p =>
      let acc1 := dinsert acc p.1 p.2
      let acc2 := dinsert acc1 p.2 p.2
      match splitDot p.1 with
      | [_, _, c] => dinsert acc2 c p.2
      | _ => acc2)
    []

/-- The `alias_to_table` dict: alias → table name, from every non-CTE table
node with a truthy alias. -/
def aliasToTableOf (cteNames : List String) (tree : SqlExpr) :
    List (String × String) :=
  (collectTables tree).foldl
    (fun acc t =>
      if t.name != "" && !cteNames.contains t.name then
        if t.tblAlias != "" then dinsert acc t.tblAlias t.name else acc
      else acc)
    []

/-- Model of `is_referencing_cte`: a qualified column references a CTE iff its
qualifier is a CTE name; an unqualified column does iff the FROM-clause
table of the nearest enclosing SELECT is a CTE name. -/
def is_referencing_cte (cteNames : List String)
    (enclosingFrom : Option String) (c : ColumnNode) : Bool :=
  if c.table = "" then
    match enclosingFrom with
    | some f => cteNames.contains f
    | none => false
  else cteNames.contains c.table

/-- The table-context lookup of the column passes: exact dict hit first,
then a scan comparing keys upper-cased. -/
def lookupLogicalTable (tableLookup : List (String × String))
    (actual : String) : Option String :=
  match dget tableLookup actual with
  | some v => some v
  | none =>
    (tableLookup.find? (fun p => upperStr p.1 == upperStr actual)).map (·.2)

/-- Model of `sqlglot.parse_one(expr, dialect="snowflake", into=exp.Column)`
for plain (possibly table-qualified) column identifiers; anything else is a
parse failure (`none`), which the rewriter swallows, keeping the original
node. -/
def parseColumnExprModel (s : String) : Option ColumnNode :=
  match splitDot s with
  | [c] => if c != "" then some ⟨"", c⟩ else none
  | [t, c] => if t != "" && c != "" then some ⟨t, c⟩ else none
  | _ => none

/-- Context shared by every column of one rewrite call: the CTE name set,
the alias dict, the table-name lookup dict and the per-table column
mapping. -/
structure ColCtx where
  cteNames : List String
  aliasToTable : List (String × String)
  tableLookup : List (String × String)
  columnMapping : List (String × List (String × String))

/-- The owning logical table of a column reference, as resolved by both
column passes: a qualified column resolves its qualifier through the alias
dict and then the table-name lookup (a qualifier that is a CTE name
resolves to nothing); an unqualified column is assigned the first table
whose column dict contains its name case-insensitively. -/
def resolveOwningTable (ctx : ColCtx) (c : ColumnNode) : Option String :=
  if c.table != "" then
    if ctx.cteNames.contains c.table then none
    else
      let actual := (dget ctx.aliasToTable c.table).getD c.table
      lookupLogicalTable ctx.tableLookup actual
  else
    (ctx.columnMapping.find?
        (fun p => (case_insensitive_column_lookup c.name p.2).isSome)).map
      (·.1)

/-- The loop body of `resolve_logical_to_physical_column_names` for one
column node: on a resolved owning table with a column hit, the whole column
node is replaced by the parsed physical expression. -/
def colRewriteL2P (ctx : ColCtx) (enclosingFrom : Option String)
    (c : ColumnNode) : ColumnNode :=
  if c.name = "" || is_referencing_cte ctx.cteNames enclosingFrom c then c
  else
    match resolveOwningTable ctx c with
    | some logical_table =>
      match dget ctx.columnMapping logical_table with
      | some table_columns =>
        match case_insensitive_column_lookup c.name table_columns with
        | some physical_expr =>
          match parseColumnExprModel physical_expr with
          | some pc => pc
          | none => c
        | none => c
      | none => c
    | none => c

/-- The loop body of `resolve_physical_to_logical_column_names` for one
column node: on a hit the column is replaced by a bare logical column
identifier carrying the original qualifier. -/
def colRewriteP2L (ctx : ColCtx) (enclosingFrom : Option String)
    (c : ColumnNode) : ColumnNode :=
  if c.name = "" || is_referencing_cte ctx.cteNames enclosingFrom c then c
  else
    match resolveOwningTable ctx c with
    | some logical_table =>
      match dget ctx.columnMapping logical_table with
      | some table_columns =>
        match case_insensitive_column_lookup c.name table_columns with
        | some logical_name => { table := c.table, name := logical_name }
        | none => c
      | none => c
    | none => c

/-- The column pass of `resolve_logical_to_physical_column_names` on a
parsed tree. -/
def resolveL2PColumnsAst (tree : SqlExpr) (table_mapping : List (String × String))
    (column_mapping : List (String × List (String × String))) : SqlExpr :=
  let cteNames := collectCteNames tree
  mapColumnsE
    (colRewriteL2P
      { cteNames := cteNames
        aliasToTable := aliasToTableOf cteNames tree
        tableLookup := reverseTableMappingOf table_mapping
        columnMapping := column_mapping })
    none tree

/-- The column pass of `resolve_physical_to_logical_column_names` on a
parsed tree. -/
def resolveP2LColumnsAst (tree : SqlExpr) (table_mapping : List (String × String))
    (column_mapping : List (String × List (String × String))) : SqlExpr :=
  let cteNames := collectCteNames tree
  mapColumnsE
    (colRewriteP2L
      { cteNames := cteNames
        aliasToTable := aliasToTableOf cteNames tree
        tableLookup := logicalTableMappingOf table_mapping
        columnMapping := column_mapping })
    none tree

/-- Model of `resolve_logical_to_physical_table_names` at the string level: the
external parser and renderer are passed as functions; a parse failure
(`none`, the Python exception path) returns the input SQL unchanged. -/
def resolve_logical_to_physical_table_names (parse : String → Option SqlExpr)
    (render : SqlExpr → String) (sql : String)
    (mapping : List (String × String)) : String :=
  match parse sql with
  | none => sql
  | some tree => render (resolveL2PTablesAst tree mapping)

/-- Model of `resolve_physical_to_logical_table_names` at the string level. -/
def resolve_physical_to_logical_table_names (parse : String → Option SqlExpr)
    (render : SqlExpr → String) (sql : String)
    (reverse_mapping : List (String × String)) : String :=
  match parse sql with
  | none => sql
  | some tree => render (resolveP2LTablesAst tree reverse_mapping)

/-- Model of `resolve_logical_to_physical_column_names` at the string level. -/
def resolve_logical_to_physical_column_names (parse : String → Option SqlExpr)
    (render : SqlExpr → String) (sql : String)
    (table_mapping : List (String × String))
    (column_mapping : List (String × List (String × String))) : String :=
  match parse sql with
  | none => sql
  | some tree => render (resolveL2PColumnsAst tree table_mapping column_mapping)

/-- Model of `resolve_physical_to_logical_column_names` at the string level. -/
def resolve_physical_to_logical_column_names (parse : String → Option SqlExpr)
    (render : SqlExpr → String) (sql : String)
    (table_mapping : List (String × String))
    (column_mapping : List (String × List (String × String))) : String :=
  match parse sql with
  | none => sql
  | some tree => render (resolveP2LColumnsAst tree table_mapping column_mapping)

/-! ## Relationship inference (`relationship_creation.py`) -/

/-- A table of the semantic model as consumed by `relationship_creation.py`:
its name, the optional `primary_key.columns` list (`none` models an absent
or falsy `primary_key` entry) and the optional `unique_keys` list of
`columns` lists. -/
structure RelTable where
  name : String
  primary_key : Option (List String)
  unique_keys : Option (List (List String))

/-- Model of `get_primary_key_columns`: primary key columns, lower-cased (the Python
function returns them as a set; subset tests below are membership-based, so
a list models the set faithfully). -/
def get_primary_key_columns (t : RelTable) : List String :=
  match t.primary_key with
  | none => []
  | some cols => cols.map lowerStr

/-- Model of `get_unique_key_columns`: the non-empty unique-key column sets,
lower-cased. -/
def get_unique_key_columns (t : RelTable) : List (List String) :=
  match t.unique_keys with
  | none => []
  | some uks => (uks.filter (fun cols => !cols.isEmpty)).map (·.map lowerStr)

/-- Model of `get_all_constraint_sets`: the primary key set (if non-empty) followed by
all unique-key sets. -/
def get_all_constraint_sets (t : RelTable) : List (List String) :=
  let pk := get_primary_key_columns t
  (if !pk.isEmpty then [pk] else []) ++ get_unique_key_columns t

/-- Python `set.issubset` on column sets modelled as lists. -/
def issubset (a b : List String) : Bool := a.all (fun x => b.contains x)

/-- Model of `has_constraint_on_columns`: some constraint set is a subset of the join
columns. -/
def has_constraint_on_columns (constraint_sets : List (List String))
    (join_columns : List String) : Bool :=
  constraint_sets.any (fun cs => issubset cs join_columns)

/-- An accepted relationship record as built by `infer_relationship_type`. -/
structure Relationship where
  name : String
  left_table : String
  right_table : String
  join_type : String
  relationship_type : String
  relationship_columns : List (String × String)
  deriving DecidableEq

/-- The `error_info` record returned on a many-to-many rejection. -/
structure ManyToManyError where
  error : String
  left_table : String
  right_table : String
  left_columns : List String
  right_columns : List String
  deriving DecidableEq

/-- Result of `infer_relationship_type`: the Python function returns a pair
of a tag string and either a relationship dict or an error dict. -/
inductive RelOutcome where
  | accepted (tag : String) (rel : Relationship)
  | rejected (tag : String) (err : ManyToManyError)
  deriving DecidableEq

/-- Model of `infer_relationship_type` from `relationship_creation.py`. -/
def infer_relationship_type (left_table right_table : RelTable)
    (left_columns right_columns : List String) : RelOutcome :=
  let left_constraint_sets := get_all_constraint_sets left_table
  let right_constraint_sets := get_all_constraint_sets right_table
  let left_join_cols := left_columns.map lowerStr
  let right_join_cols := right_columns.map lowerStr
  let left_has_constraint :=
    has_constraint_on_columns left_constraint_sets left_join_cols
  let right_has_constraint :=
    has_constraint_on_columns right_constraint_sets right_join_cols
  let left_table_name := left_table.name
  let right_table_name := right_table.name
  if left_has_constraint && right_has_constraint then
    .accepted "one_to_one"
      { name := left_table_name ++ "_TO_" ++ right_table_name
        left_table := left_table_name
        right_table := right_table_name
        join_type := "inner"
        relationship_type := "one_to_one"
        relationship_columns :=
          (left_columns.zip right_columns).map (fun p => (p.1, p.2)) }
  else if right_has_constraint then
    .accepted "many_to_one"
      { name := left_table_name ++ "_TO_" ++ right_table_name
        left_table := left_table_name
        right_table := right_table_name
        join_type := "inner"
        relationship_type := "many_to_one"
        relationship_columns :=
          (left_columns.zip right_columns).map (fun p => (p.1, p.2)) }
  else if left_has_constraint then
    .accepted "many_to_one (swapped)"
      { name := right_table_name ++ "_TO_" ++ left_table_name
        left_table := right_table_name
        right_table := left_table_name
        join_type := "inner"
        relationship_type := "many_to_one"
        relationship_columns :=
          (left_columns.zip right_columns).map (fun p => (p.2, p.1)) }
  else
    .rejected "many_to_many (rejected)"
      { error := "many_to_many"
        left_table := left_table_name
        right_table := right_table_name
        left_columns := left_columns
        right_columns := right_columns }

/-! ## Primary-key inference (`infer_primary_keys.py`)

Database access is modelled by passing the measured null rate and the
approximate distinct counts as functions of the column (list); rates and
thresholds are modelled as rationals. -/

/-- One entry of `columns_metadata` (from `DESCRIBE TABLE`). -/
structure ColumnMeta where
  name : String
  data_type : String
  nullable : Bool
  deriving DecidableEq

/-- Name contains an `_ID` token or ends in `ID` (checked upper-cased). -/
def isIdName (n : String) : Bool :=
  containsTok (upperStr n) "_ID" || endsWithTok (upperStr n) "ID"

/-- Name contains a `_KEY` token or ends in `KEY` (checked upper-cased). -/
def isKeyName (n : String) : Bool :=
  containsTok (upperStr n) "_KEY" || endsWithTok (upperStr n) "KEY"

/-- Name contains one of the temporal keywords. -/
def isTemporalName (n : String) : Bool :=
  ["DATE", "TIME", "TIMESTAMP", "DS", "DT"].any
    (fun k => containsTok (upperStr n) k)

/-- Upper-cased data type contains `NUMBER` or `INT`. -/
def isNumericType (d : String) : Bool :=
  containsTok d "NUMBER" || containsTok d "INT"

/-- Upper-cased data type contains `DATE`, `TIME` or `TIMESTAMP`. -/
def isTemporalType (d : String) : Bool :=
  containsTok d "DATE" || (containsTok d "TIME" || containsTok d "TIMESTAMP")

/-- Upper-cased data type contains `VARCHAR` or `TEXT`. -/
def isStringType (d : String) : Bool :=
  containsTok d "VARCHAR" || containsTok d "TEXT"

/-- Name contains one of the free-text keywords. -/
def isFreeTextName (n : String) : Bool :=
  ["NAME", "DESCRIPTION", "COMMENT", "TEXT", "CONTENT"].any
    (fun k => containsTok (upperStr n) k)

/-- Upper-cased data type contains `FLOAT`, `DOUBLE` or `DECIMAL`. -/
def isFloatType (d : String) : Bool :=
  containsTok d "FLOAT" || (containsTok d "DOUBLE" || containsTok d "DECIMAL")

/-- The heuristic score accumulated by `filter_key_candidate_columns`
before the null-rate check, following the source's sequence of `score +=`
updates. -/
def scoreOf (c : ColumnMeta) : Int :=
  let n := c.name
  let d := upperStr c.data_type
  let score : Int := 0
  let score := if isIdName n then score + 3 else score
  let score := if isKeyName n then score + 3 else score
  let score := if isTemporalName n then score + 2 else score
  let score := if isNumericType d then score + 1 else score
  let score := if isTemporalType d then score + 2 else score
  let score :=
    if isStringType d then
      if isFreeTextName n then score - 2 else score + 1
    else score
  let score := if isFloatType d then score - 1 else score
  if !c.nullable then score + 1 else score

/-- Model of `filter_key_candidate_columns`: columns scoring at least 2 pay a
null-rate query; a null rate above 10% costs 2 more points, and only
columns still at 2 or above survive.  `nullPct` models
`get_null_percentage` on the given table. -/
def filter_key_candidate_columns (nullPct : String → ℚ) :
    List ColumnMeta → List String
  | [] => []
  | c :: rest =>
    let score := scoreOf c
    if score ≥ 2 then
      let score := if nullPct c.name > 1 / 10 then score - 2 else score
      if score ≥ 2 then c.name :: filter_key_candidate_columns nullPct rest
      else filter_key_candidate_columns nullPct rest
    else filter_key_candidate_columns nullPct rest

/-- Python `round(v, 2)` on the percentage; ties are modelled half-up
(Python rounds ties to even, which no theorem below depends on). -/
def round2 (v : ℚ) : ℚ := (⌊v * 100 + 1 / 2⌋ : ℚ) / 100

/-- A key candidate record as built by the two `find_*_keys` functions. -/
structure KeyCandidate where
  columns : List String
  distinct_count : ℕ
  row_count : ℕ
  uniqueness_percentage : ℚ
  type : String
  deriving DecidableEq

/-- Model of `find_single_column_keys`: `card` models `get_column_cardinality` on
the given table. -/
def find_single_column_keys (card : String → ℕ) (row_count : ℕ)
    (uniqueness_threshold : ℚ) : List String → List KeyCandidate
  | [] => []
  | column :: rest =>
    let distinct_count := card column
    let found := find_single_column_keys card row_count uniqueness_threshold rest
    if 0 < row_count then
      let uniqueness_pct : ℚ := (distinct_count : ℚ) / (row_count : ℚ)
      if uniqueness_pct ≥ uniqueness_threshold then
        { columns := [column]
          distinct_count := distinct_count
          row_count := row_count
          uniqueness_percentage := round2 (uniqueness_pct * 100)
          type := "single_column" } :: found
      else found
    else found

/-- Model of `itertools.combinations`: all `k`-element sublists in order. -/
def combinations {α : Type} : ℕ → List α → List (List α)
  | 0, _ => [[]]
  | _ + 1, [] => []
  | k + 1, x :: xs =>
    (combinations k xs).map (fun l => x :: l) ++ combinations (k + 1) xs

/-- The qualification test of one composite combination inside
`find_composite_keys`. -/
def compositeCandidate (card : List String → ℕ) (row_count : ℕ)
    (uniqueness_threshold : ℚ) (num_cols : ℕ) (combo : List String) :
    Option KeyCandidate :=
  let distinct_count := card combo
  if 0 < row_count then
    let uniqueness_pct : ℚ := (distinct_count : ℚ) / (row_count : ℚ)
    if uniqueness_pct ≥ uniqueness_threshold then
      some
        { columns := combo
          distinct_count := distinct_count
          row_count := row_count
          uniqueness_percentage := round2 (uniqueness_pct * 100)
          type := toString num_cols ++ "_column_composite" }
    else none
  else none

/-- Model of `find_composite_keys`: `card` models `get_composite_cardinality`;
`num_cols` ranges over `range(2, max_cols + 1)`. -/
def find_composite_keys (card : List String → ℕ) (row_count : ℕ)
    (columns : List String) (max_cols : ℕ) (uniqueness_threshold : ℚ) :
    List KeyCandidate :=
  (List.range' 2 (max_cols - 1)).flatMap
    (fun num_cols =>
      (combinations num_cols columns).filterMap
        (compositeCandidate card row_count uniqueness_threshold num_cols))

/-! ## Helper lemmas: ASCII case mapping and the dict model -/

theorem char_toNat_ofNat_valid {n : ℕ} (h : n.isValidChar) :
    (Char.ofNat n).toNat = n := by
  unfold Char.ofNat
  rw [dif_pos h]
  rfl

theorem char_eq_of_toNat_eq {a b : Char} (h : a.toNat = b.toNat) : a = b :=
  Char.ext (UInt32.toNat.inj h)

theorem toLower_toNat (c : Char) :
    c.toLower.toNat =
      if c.toNat ≥ 65 ∧ c.toNat ≤ 90 then c.toNat + 32 else c.toNat := by
  show (if c.toNat ≥ 65 ∧ c.toNat ≤ 90 then Char.ofNat (c.toNat + 32)
      else c).toNat = _
  by_cases h : c.toNat ≥ 65 ∧ c.toNat ≤ 90
  · rw [if_pos h, if_pos h]
    exact char_toNat_ofNat_valid (Or.inl (by omega))
  · rw [if_neg h, if_neg h]

theorem toUpper_toNat (c : Char) :
    c.toUpper.toNat =
      if c.toNat ≥ 97 ∧ c.toNat ≤ 122 then c.toNat - 32 else c.toNat := by
  show (if c.toNat ≥ 97 ∧ c.toNat ≤ 122 then Char.ofNat (c.toNat - 32)
      else c).toNat = _
  by_cases h : c.toNat ≥ 97 ∧ c.toNat ≤ 122
  · rw [if_pos h, if_pos h]
    exact char_toNat_ofNat_valid (Or.inl (by omega))
  · rw [if_neg h, if_neg h]

theorem toLower_toLower (c : Char) : c.toLower.toLower = c.toLower := by
  apply char_eq_of_toNat_eq
  rw [toLower_toNat, toLower_toNat]
  split_ifs <;> omega

theorem toUpper_toLower (c : Char) : c.toLower.toUpper = c.toUpper := by
  apply char_eq_of_toNat_eq
  rw [toUpper_toNat, toUpper_toNat, toLower_toNat]
  split_ifs <;> omega

theorem toLower_toUpper (c : Char) : c.toUpper.toLower = c.toLower := by
  apply char_eq_of_toNat_eq
  rw [toLower_toNat, toLower_toNat, toUpper_toNat]
  split_ifs <;> omega

theorem toUpper_toUpper (c : Char) : c.toUpper.toUpper = c.toUpper := by
  apply char_eq_of_toNat_eq
  rw [toUpper_toNat, toUpper_toNat]
  split_ifs <;> omega

theorem lowerStr_lowerStr (s : String) : lowerStr (lowerStr s) = lowerStr s := by
  unfold lowerStr
  apply congrArg String.mk
  rw [List.map_map]
  exact List.map_congr_left fun c _ => toLower_toLower c

theorem upperStr_lowerStr (s : String) : upperStr (lowerStr s) = upperStr s := by
  unfold upperStr lowerStr
  apply congrArg String.mk
  rw [List.map_map]
  exact List.map_congr_left fun c _ => toUpper_toLower c

theorem lowerStr_upperStr (s : String) : lowerStr (upperStr s) = lowerStr s := by
  unfold upperStr lowerStr
  apply congrArg String.mk
  rw [List.map_map]
  exact List.map_congr_left fun c _ => toLower_toUpper c

theorem upperStr_upperStr (s : String) : upperStr (upperStr s) = upperStr s := by
  unfold upperStr
  apply congrArg String.mk
  rw [List.map_map]
  exact List.map_congr_left fun c _ => toUpper_toUpper c

theorem dget_mem {β : Type} {m : List (String × β)} {k : String} {v : β}
    (h : dget m k = some v) : (k, v) ∈ m := by
  unfold dget at h
  cases hf : m.find? (fun p => p.1 == k) with
  | none => rw [hf] at h; simp at h
  | some p =>
    rw [hf] at h
    simp at h
    have hk : p.1 = k := by
      have := List.find?_some hf
      simpa using this
    have hm := List.mem_of_find?_eq_some hf
    have hp : p = (k, v) := by
      cases p with
      | mk a b => simp at hk h ⊢; exact ⟨hk, h⟩
    rwa [hp] at hm

/-! ## Claim C5 -/

/-- C5 counterexample: the table mapping built from a document with a
single table whose logical name is the mixed-case `"Foo"` resolves the
lookup of `"Foo"`, but the lookup of `"Foo".lower() = "foo"` returns
`none` (it tries `foo`, `foo`, `FOO`, none of which is a key), so the
three lookups of the claim do not all yield the same physical target. -/
theorem lookup_mixed_case_counterexample :
    case_insensitive_lookup "Foo"
      (build_logical_to_physical_mapping
        ⟨[⟨"Foo", some ⟨"D", "S", "T"⟩, [], [], [], [], []⟩]⟩) =
      some "D.S.T" ∧
    lowerStr "Foo" = "foo" ∧
    case_insensitive_lookup "foo"
      (build_logical_to_physical_mapping
        ⟨[⟨"Foo", some ⟨"D", "S", "T"⟩, [], [], [], [], []⟩]⟩) = none := by
  refine ⟨?_, ?_, ?_⟩ <;> decide

/-- C5 (amended): for a logical name `n` stored in a mapping, the lookups
of `n`, `n.lower()` and `n.upper()` all yield `n`'s physical target,
provided `n` is entirely lower-case or entirely upper-case and every key
of the mapping that equals `n` up to ASCII case maps to the same target.
(Without these provisos the claim fails: see the counterexample.) -/
theorem lookup_case_insensitive_amended (m : List (String × String))
    (n v : String) (hn : dget m n = some v)
    (hcase : lowerStr n = n ∨ upperStr n = n)
    (huniq : ∀ k w, (k, w) ∈ m → upperStr k = upperStr n → w = v) :
    case_insensitive_lookup n m = some v ∧
    case_insensitive_lookup (lowerStr n) m = some v ∧
    case_insensitive_lookup (upperStr n) m = some v := by
  have hval : ∀ s w, upperStr s = upperStr n → dget m s = some w → w = v := by
    intro s w hs hd
    exact huniq s w (dget_mem hd) hs
  refine ⟨?_, ?_, ?_⟩
  · unfold case_insensitive_lookup
    rw [hn]
  · unfold case_insensitive_lookup
    rcases hcase with hc | hc
    · rw [hc, hn]
    · cases h1 : dget m (lowerStr n) with
      | some w => rw [hval _ _ (upperStr_lowerStr n) h1]
      | none =>
        rw [lowerStr_lowerStr, h1, upperStr_lowerStr, hc, hn]
  · unfold case_insensitive_lookup
    rcases hcase with hc | hc
    · cases h1 : dget m (upperStr n) with
      | some w => rw [hval _ _ (upperStr_upperStr n) h1]
      | none =>
        rw [lowerStr_upperStr, hc, hn]
    · rw [hc, hn]

/-- C5 witness: the amended lookup theorem applied to the mapping built
from a one-table document with the all-lower-case logical name `"foo"`. -/
theorem lookup_case_insensitive_witness :
    case_insensitive_lookup "foo" [("foo", "D.S.T")] = some "D.S.T" ∧
    case_insensitive_lookup (lowerStr "foo") [("foo", "D.S.T")] = some "D.S.T" ∧
    case_insensitive_lookup (upperStr "foo") [("foo", "D.S.T")] = some "D.S.T" :=
  lookup_case_insensitive_amended [("foo", "D.S.T")] "foo" "D.S.T"
    (by decide) (Or.inl (by decide))
    (by intro k w hk _; simp at hk; exact hk.2)

/-! ## Claims C1 and C2 -/

/-- C1: when only the left table has a constraint set covered by its join
columns, `infer_relationship_type` returns a `many_to_one` relationship
with left and right tables swapped, the uniqueness-carrying table on the
right, and every `relationship_columns` pair swapped in parallel: position
`i` holds `(right_columns[i], left_columns[i])`, so the original
`left[i]` still joins the original `right[i]`. -/
theorem infer_swapped_many_to_one (lt rt : RelTable)
    (lcols rcols : List String) (hlen : lcols.length = rcols.length)
    (hL : has_constraint_on_columns (get_all_constraint_sets lt)
        (lcols.map lowerStr) = true)
    (hR : has_constraint_on_columns (get_all_constraint_sets rt)
        (rcols.map lowerStr) = false) :
    ∃ rel, infer_relationship_type lt rt lcols rcols =
        .accepted "many_to_one (swapped)" rel ∧
      rel.relationship_type = "many_to_one" ∧
      rel.left_table = rt.name ∧ rel.right_table = lt.name ∧
      rel.relationship_columns.length = lcols.length ∧
      ∀ (i : ℕ) (li ri : String), lcols[i]? = some li → rcols[i]? = some ri →
        rel.relationship_columns[i]? = some (ri, li) := by
  refine ⟨Relationship.mk (rt.name ++ "_TO_" ++ lt.name) rt.name lt.name
      "inner" "many_to_one" ((lcols.zip rcols).map (fun p => (p.2, p.1))),
    ?_, rfl, rfl, rfl, ?_, ?_⟩
  · simp [infer_relationship_type, hL, hR]
  · rw [List.length_map, List.length_zip, hlen, Nat.min_self]
  · intro i li ri hli hri
    have hz : (lcols.zip rcols)[i]? = some (li, ri) :=
      List.getElem?_zip_eq_some.mpr ⟨hli, hri⟩
    rw [List.getElem?_map, hz]
    rfl

/-- C1 witness: the swap case at a concrete input (`CUSTOMERS` with a
primary key on `customer_id` joined as the caller's left table to a
keyless `ORDERS`). -/
theorem infer_swapped_many_to_one_witness :
    (["CUSTOMER_ID"] : List String).length = ["CUSTOMER_ID"].length ∧
    has_constraint_on_columns
      (get_all_constraint_sets ⟨"CUSTOMERS", some ["customer_id"], none⟩)
      (["CUSTOMER_ID"].map lowerStr) = true ∧
    has_constraint_on_columns
      (get_all_constraint_sets ⟨"ORDERS", none, none⟩)
      (["CUSTOMER_ID"].map lowerStr) = false ∧
    ∃ rel, infer_relationship_type ⟨"CUSTOMERS", some ["customer_id"], none⟩
        ⟨"ORDERS", none, none⟩ ["CUSTOMER_ID"] ["CUSTOMER_ID"] =
        .accepted "many_to_one (swapped)" rel ∧
      rel.relationship_type = "many_to_one" ∧
      rel.left_table = "ORDERS" ∧ rel.right_table = "CUSTOMERS" ∧
      rel.relationship_columns.length = (["CUSTOMER_ID"] : List String).length ∧
      ∀ (i : ℕ) (li ri : String), (["CUSTOMER_ID"] : List String)[i]? = some li →
        (["CUSTOMER_ID"] : List String)[i]? = some ri →
        rel.relationship_columns[i]? = some (ri, li) :=
  ⟨rfl, by decide, by decide,
    infer_swapped_many_to_one ⟨"CUSTOMERS", some ["customer_id"], none⟩
      ⟨"ORDERS", none, none⟩ ["CUSTOMER_ID"] ["CUSTOMER_ID"] rfl
      (by decide) (by decide)⟩

/-- C2: when neither table has a constraint set covered by its join
columns, `infer_relationship_type` returns the many-to-many rejection
record carrying both table names and both (original) column lists, and
never an accepted relationship. -/
theorem infer_many_to_many_rejected (lt rt : RelTable)
    (lcols rcols : List String)
    (hL : has_constraint_on_columns (get_all_constraint_sets lt)
        (lcols.map lowerStr) = false)
    (hR : has_constraint_on_columns (get_all_constraint_sets rt)
        (rcols.map lowerStr) = false) :
    infer_relationship_type lt rt lcols rcols =
      .rejected "many_to_many (rejected)"
        { error := "many_to_many"
          left_table := lt.name
          right_table := rt.name
          left_columns := lcols
          right_columns := rcols } := by
  simp [infer_relationship_type, hL, hR]

/-- C2 witness: two keyless tables joined on one column. -/
theorem infer_many_to_many_rejected_witness :
    has_constraint_on_columns
      (get_all_constraint_sets ⟨"A", none, none⟩) (["x"].map lowerStr) = false ∧
    has_constraint_on_columns
      (get_all_constraint_sets ⟨"B", none, none⟩) (["y"].map lowerStr) = false ∧
    infer_relationship_type ⟨"A", none, none⟩ ⟨"B", none, none⟩ ["x"] ["y"] =
      .rejected "many_to_many (rejected)"
        { error := "many_to_many", left_table := "A", right_table := "B"
          left_columns := ["x"], right_columns := ["y"] } :=
  ⟨by decide, by decide,
    infer_many_to_many_rejected ⟨"A", none, none⟩ ⟨"B", none, none⟩
      ["x"] ["y"] (by decide) (by decide)⟩

/-! ## Claim C4 -/

/-- C4: when parsing the input SQL fails, each of the four rewrite
functions (table and column resolution, in both directions) returns the
original SQL string unchanged; the functions are total, so the failure
never propagates as an exception to the caller. -/
theorem parse_failure_returns_sql (parse : String → Option SqlExpr)
    (render : SqlExpr → String) (sql : String)
    (tm rm : List (String × String))
    (cm : List (String × List (String × String)))
    (h : parse sql = none) :
    resolve_logical_to_physical_table_names parse render sql tm = sql ∧
    resolve_physical_to_logical_table_names parse render sql rm = sql ∧
    resolve_logical_to_physical_column_names parse render sql tm cm = sql ∧
    resolve_physical_to_logical_column_names parse render sql tm cm = sql := by
  unfold resolve_logical_to_physical_table_names
    resolve_physical_to_logical_table_names
    resolve_logical_to_physical_column_names
    resolve_physical_to_logical_column_names
  rw [h]
  exact ⟨rfl, rfl, rfl, rfl⟩

/-- C4 witness: a parser that rejects the input leaves a concrete SQL
string untouched in all four directions. -/
theorem parse_failure_returns_sql_witness :
    (fun (_ : String) => (none : Option SqlExpr)) "SELECT (" = none ∧
    (resolve_logical_to_physical_table_names (fun _ => none) (fun _ => "")
        "SELECT (" [] = "SELECT (" ∧
      resolve_physical_to_logical_table_names (fun _ => none) (fun _ => "")
        "SELECT (" [] = "SELECT (" ∧
      resolve_logical_to_physical_column_names (fun _ => none) (fun _ => "")
        "SELECT (" [] [] = "SELECT (" ∧
      resolve_physical_to_logical_column_names (fun _ => none) (fun _ => "")
        "SELECT (" [] [] = "SELECT (") :=
  ⟨rfl, parse_failure_returns_sql (fun _ => none) (fun _ => "") "SELECT ("
    [] [] [] rfl⟩

/-! ## Claim C9 -/

theorem filterMap_sublist_of_imp {α β : Type} (f g : α → Option β)
    (h : ∀ a b, g a = some b → f a = some b) :
    ∀ l : List α, (l.filterMap g).Sublist (l.filterMap f) := by
  intro l
  induction l with
  | nil => simp
  | cons a l ih =>
    rw [List.filterMap_cons, List.filterMap_cons]
    cases hg : g a with
    | none =>
      cases hf : f a with
      | none => exact ih
      | some b => exact ih.cons b
    | some b =>
      rw [h a b hg]
      exact ih.cons₂ b

theorem flatMap_sublist_of_sublist {α β : Type} (F G : α → List β)
    (h : ∀ x, (G x).Sublist (F x)) :
    ∀ xs : List α, (xs.flatMap G).Sublist (xs.flatMap F) := by
  intro xs
  induction xs with
  | nil => simp
  | cons x xs ih =>
    rw [List.flatMap_cons, List.flatMap_cons]
    exact (h x).append ih

theorem find_single_column_keys_sublist (card : String → ℕ) (rc : ℕ)
    (t t' : ℚ) (h : t ≤ t') (cols : List String) :
    (find_single_column_keys card rc t' cols).Sublist
      (find_single_column_keys card rc t cols) := by
  induction cols with
  | nil => exact .refl _
  | cons c cols ih =>
    rw [find_single_column_keys, find_single_column_keys]
    by_cases hrc : 0 < rc
    · rw [if_pos hrc, if_pos hrc]
      by_cases h' : ((card c : ℚ) / (rc : ℚ)) ≥ t'
      · rw [if_pos h', if_pos (le_trans h h')]
        exact ih.cons₂ _
      · rw [if_neg h']
        by_cases h0 : ((card c : ℚ) / (rc : ℚ)) ≥ t
        · rw [if_pos h0]
          exact ih.cons _
        · rw [if_neg h0]
          exact ih
    · rw [if_neg hrc, if_neg hrc]
      exact ih

theorem compositeCandidate_imp (card : List String → ℕ) (rc : ℕ)
    (t t' : ℚ) (h : t ≤ t') (k : ℕ) :
    ∀ combo r, compositeCandidate card rc t' k combo = some r →
      compositeCandidate card rc t k combo = some r := by
  intro combo r hr
  unfold compositeCandidate at hr ⊢
  by_cases hrc : 0 < rc
  · rw [if_pos hrc] at hr ⊢
    by_cases h' : ((card combo : ℚ) / (rc : ℚ)) ≥ t'
    · rw [if_pos h'] at hr
      rw [if_pos (le_trans h h')]
      exact hr
    · rw [if_neg h'] at hr
      exact absurd hr (by simp)
  · rw [if_neg hrc] at hr
    exact absurd hr (by simp)

/-- C9: for a fixed table (fixed cardinality measurements and row count),
the qualifying candidates at a higher threshold form a sublist of those at
a lower threshold — so raising the threshold never increases the number of
qualifying candidates, for single-column and composite candidates alike. -/
theorem threshold_antitone (cardS : String → ℕ) (cardC : List String → ℕ)
    (rc : ℕ) (cols : List String) (max_cols : ℕ) (t t' : ℚ) (h : t ≤ t') :
    (find_single_column_keys cardS rc t' cols).Sublist
        (find_single_column_keys cardS rc t cols) ∧
    (find_single_column_keys cardS rc t' cols).length ≤
        (find_single_column_keys cardS rc t cols).length ∧
    (find_composite_keys cardC rc cols max_cols t').Sublist
        (find_composite_keys cardC rc cols max_cols t) ∧
    (find_composite_keys cardC rc cols max_cols t').length ≤
        (find_composite_keys cardC rc cols max_cols t).length := by
  have hs := find_single_column_keys_sublist cardS rc t t' h cols
  have hc : (find_composite_keys cardC rc cols max_cols t').Sublist
      (find_composite_keys cardC rc cols max_cols t) := by
    unfold find_composite_keys
    apply flatMap_sublist_of_sublist
    intro k
    exact filterMap_sublist_of_imp _ _
      (compositeCandidate_imp cardC rc t t' h k) _
  exact ⟨hs, hs.length_le, hc, hc.length_le⟩

/-- C9 witness: the antitonicity theorem applied at thresholds
`1/2 ≤ 1` on a one-column table of one row. -/
theorem threshold_antitone_witness :
    ((1 : ℚ) / 2 ≤ 1) ∧
    ((find_single_column_keys (fun _ => 1) 1 1 ["a", "b"]).Sublist
        (find_single_column_keys (fun _ => 1) 1 (1 / 2) ["a", "b"]) ∧
      (find_single_column_keys (fun _ => 1) 1 1 ["a", "b"]).length ≤
        (find_single_column_keys (fun _ => 1) 1 (1 / 2) ["a", "b"]).length ∧
      (find_composite_keys (fun _ => 1) 1 ["a", "b"] 2 1).Sublist
        (find_composite_keys (fun _ => 1) 1 ["a", "b"] 2 (1 / 2)) ∧
      (find_composite_keys (fun _ => 1) 1 ["a", "b"] 2 1).length ≤
        (find_composite_keys (fun _ => 1) 1 ["a", "b"] 2 (1 / 2)).length) :=
  ⟨by norm_num,
    threshold_antitone (fun _ => 1) (fun _ => 1) 1 ["a", "b"] 2 (1 / 2) 1
      (by norm_num)⟩

/-! ## Claim C8 -/

/-- The per-column score exactly as claim C8 words it (a refinement
comparison target written from the claim, not from the source): a single
`+3` when the name carries an id or key token, a single `+2` when the
column is date/time-like by name or of a temporal physical type, `+1` for
numeric or generic string types, `-2` for string types whose name suggests
free text, `-1` for floating-point types, `+1` for NOT NULL. -/
def c8ClaimScore (c : ColumnMeta) : Int :=
  let n := c.name
  let d := upperStr c.data_type
  (if isIdName n || isKeyName n then 3 else 0) +
    (if isTemporalName n || isTemporalType d then 2 else 0) +
    (if isNumericType d || (isStringType d && !isFreeTextName n) then 1
      else 0) +
    (if isStringType d && isFreeTextName n then -2 else 0) +
    (if isFloatType d then -1 else 0) +
    (if !c.nullable then 1 else 0)

/-- The per-column score as the code actually composes it, written as a
sum of independent contributions: the id bonus and the key bonus are
separate `+3`s, and the temporal-name bonus and the temporal-type bonus
are separate `+2`s (so a name carrying both an id and a key token scores
`+6`, and a date-named column of a temporal type scores `+4`); the string
branch is `-2`/`+1`, the `DECIMAL`-inclusive float penalty `-1`, NOT NULL
`+1`. -/
def c8AmendedScore (c : ColumnMeta) : Int :=
  let n := c.name
  let d := upperStr c.data_type
  (if isIdName n then 3 else 0) + (if isKeyName n then 3 else 0) +
    (if isTemporalName n then 2 else 0) +
    (if isNumericType d then 1 else 0) +
    (if isTemporalType d then 2 else 0) +
    (if isStringType d then (if isFreeTextName n then -2 else 1) else 0) +
    (if isFloatType d then -1 else 0) +
    (if !c.nullable then 1 else 0)

/-- A column survives `filter_key_candidate_columns` iff its heuristic
score reaches 2 and still reaches 2 after the null-rate penalty. -/
def survives (nullPct : String → ℚ) (c : ColumnMeta) : Bool :=
  decide (scoreOf c ≥ 2) &&
    decide (scoreOf c - (if nullPct c.name > 1 / 10 then 2 else 0) ≥ 2)

/-- C8 counterexample: `ORDER_DATE` of type `DATE` is temporal both by
name and by type; the code scores it `2 + 2 = 4`, not the single `+2` the
claim's composition prescribes.  With a measured null rate of 20% the code
keeps it (`4 - 2 = 2 ≥ 2`), while under the claim's composition it would
be discarded (`2 - 2 = 0 < 2`). -/
theorem score_double_bonus_counterexample :
    scoreOf ⟨"ORDER_DATE", "DATE", true⟩ = 4 ∧
    c8ClaimScore ⟨"ORDER_DATE", "DATE", true⟩ = 2 ∧
    filter_key_candidate_columns (fun _ => 1 / 5)
        [⟨"ORDER_DATE", "DATE", true⟩] = ["ORDER_DATE"] ∧
    c8ClaimScore ⟨"ORDER_DATE", "DATE", true⟩ - 2 < 2 := by
  refine ⟨by decide, by decide, ?_, by decide⟩
  simp only [filter_key_candidate_columns]
  rw [if_pos (show scoreOf ⟨"ORDER_DATE", "DATE", true⟩ ≥ 2 by decide),
    if_pos (show ((1 : ℚ) / 5 > 1 / 10) by norm_num),
    if_pos (show scoreOf ⟨"ORDER_DATE", "DATE", true⟩ - 2 ≥ 2 by decide)]

/-- C8 (amended): the heuristic score is composed of independent additive
contributions as in `c8AmendedScore` — with the id and key bonuses each
`+3` and the temporal-name and temporal-type bonuses each `+2`, rather
than single merged bonuses — and `filter_key_candidate_columns` keeps
exactly the columns scoring at least 2 whose score, reduced by 2 when the
measured null rate exceeds 10%, still reaches 2; the null-rate penalty is
only ever applied to columns that already scored at least 2. -/
theorem score_composition_amended :
    (∀ c : ColumnMeta, scoreOf c = c8AmendedScore c) ∧
    (∀ (nullPct : String → ℚ) (cols : List ColumnMeta),
      filter_key_candidate_columns nullPct cols =
        (cols.filter (survives nullPct)).map (·.name)) := by
  constructor
  · intro c
    have hIf : ∀ (b : Bool) (s k : Int),
        (if b then s + k else s) = s + (if b then k else 0) := by
      intro b s k; cases b <;> simp
    have hIfSub : ∀ (b : Bool) (s : Int),
        (if b then s - 1 else s) = s + (if b then -1 else 0) := by
      intro b s; cases b <;> simp [sub_eq_add_neg]
    have hIfStr : ∀ (b f : Bool) (s : Int),
        (if b then (if f then s - 2 else s + 1) else s) =
          s + (if b then (if f then -2 else 1) else 0) := by
      intro b f s; cases b <;> cases f <;> simp [sub_eq_add_neg]
    simp only [scoreOf, c8AmendedScore, hIf, hIfSub, hIfStr]
    ring
  · intro nullPct cols
    induction cols with
    | nil => rfl
    | cons c rest ih =>
      simp only [filter_key_candidate_columns]
      by_cases h1 : scoreOf c ≥ 2
      · rw [if_pos h1]
        by_cases h2 : nullPct c.name > 1 / 10
        · rw [if_pos h2]
          by_cases h3 : scoreOf c - 2 ≥ 2
          · have hs : survives nullPct c = true := by
              unfold survives
              rw [if_pos h2, decide_eq_true h1, decide_eq_true h3,
                Bool.and_self]
            rw [if_pos h3, List.filter_cons_of_pos hs, List.map_cons, ih]
          · have hs : survives nullPct c = false := by
              unfold survives
              rw [if_pos h2, decide_eq_false h3, Bool.and_false]
            rw [if_neg h3, List.filter_cons_of_neg (by rw [hs]; exact
              Bool.false_ne_true), ih]
        · rw [if_neg h2, if_pos h1]
          have hs : survives nullPct c = true := by
            unfold survives
            rw [if_neg h2, decide_eq_true h1,
              decide_eq_true (show scoreOf c - 0 ≥ 2 by omega),
              Bool.and_self]
          rw [List.filter_cons_of_pos hs, List.map_cons, ih]
      · rw [if_neg h1]
        have hs : survives nullPct c = false := by
          unfold survives
          rw [decide_eq_false h1, Bool.false_and]
        rw [List.filter_cons_of_neg (by rw [hs]; exact Bool.false_ne_true),
          ih]

/-! ## Claim C3 -/

/-- C3 counterexample: in `WITH c AS (SELECT 1 AS x) SELECT t.x FROM c AS t`
with a base table whose logical name collides with the CTE's alias `t`
(table mapping `t → D.S.P`, column mapping `t.x → PHYS_X`), the
logical→physical column pass rewrites the reference `t.x` — a reference
bound to the CTE `c` through its alias — to `PHYS_X`, because the alias
dict skips CTE tables and the qualifier `t` then resolves as a base-table
name.  So rewriting does not leave every reference bound to `c`
untouched. -/
theorem cte_alias_collision_counterexample :
    resolveL2PColumnsAst
        (.sel [("c", .sel [] none [.node []])]
          (some (.tbl ⟨"", "", "c", "t"⟩)) [.col ⟨"t", "x"⟩])
        [("t", "D.S.P")] [("t", [("x", "PHYS_X")])] =
      .sel [("c", .sel [] none [.node []])]
        (some (.tbl ⟨"", "", "c", "t"⟩)) [.col ⟨"", "PHYS_X"⟩] ∧
    (⟨"t", "x"⟩ : ColumnNode) ≠ (⟨"", "PHYS_X"⟩ : ColumnNode) :=
  ⟨rfl, by decide⟩

/-- C3 (amended): in both directions, the rewriting passes leave untouched
every column reference qualified directly with a CTE name, every
unqualified column reference whose nearest enclosing SELECT selects from a
CTE, and every table reference naming a CTE.  (A reference bound to a CTE
only through an alias of the CTE is not protected: when the alias
collides with a mapped table name it is rewritten — see the
counterexample.) -/
theorem cte_refs_untouched_amended :
    (∀ (ctx : ColCtx) (ef : Option String) (c : ColumnNode),
      c.table ≠ "" → c.table ∈ ctx.cteNames →
      colRewriteL2P ctx ef c = c ∧ colRewriteP2L ctx ef c = c) ∧
    (∀ (ctx : ColCtx) (f : String) (c : ColumnNode),
      c.table = "" → f ∈ ctx.cteNames →
      colRewriteL2P ctx (some f) c = c ∧ colRewriteP2L ctx (some f) c = c) ∧
    (∀ (cte : List String) (mp : List (String × String)) (t : TableNode),
      t.name ∈ cte →
      tblRewriteL2P cte mp t = t ∧ tblRewriteP2L cte mp t = t) := by
  have hirc1 : ∀ (cn : List String) (ef : Option String) (c : ColumnNode),
      c.table ≠ "" → c.table ∈ cn → is_referencing_cte cn ef c = true := by
    intro cn ef c h1 h2
    unfold is_referencing_cte
    rw [if_neg h1]
    exact List.elem_eq_true_of_mem h2
  have hirc2 : ∀ (cn : List String) (f : String) (c : ColumnNode),
      c.table = "" → f ∈ cn → is_referencing_cte cn (some f) c = true := by
    intro cn f c h1 h2
    unfold is_referencing_cte
    rw [if_pos h1]
    exact List.elem_eq_true_of_mem h2
  refine ⟨?_, ?_, ?_⟩
  · intro ctx ef c h1 h2
    constructor
    · unfold colRewriteL2P
      rw [hirc1 _ _ _ h1 h2]
      simp
    · unfold colRewriteP2L
      rw [hirc1 _ _ _ h1 h2]
      simp
  · intro ctx f c h1 h2
    constructor
    · unfold colRewriteL2P
      rw [hirc2 _ _ _ h1 h2]
      simp
    · unfold colRewriteP2L
      rw [hirc2 _ _ _ h1 h2]
      simp
  · intro cte mp t h
    have hc : cte.contains t.name = true := List.elem_eq_true_of_mem h
    constructor
    · unfold tblRewriteL2P
      rw [hc]
      simp
    · unfold tblRewriteP2L
      rw [hc]
      simp

/-- C3 witness: the amended theorem applied to a reference `c.x` qualified
directly with the CTE name `c`, in a context where a base table also has a
column named `x`. -/
theorem cte_refs_untouched_witness :
    colRewriteL2P ⟨["c"], [], [("t", "t")], [("t", [("x", "PHYS_X")])]⟩ none
        ⟨"c", "x"⟩ = ⟨"c", "x"⟩ ∧
    colRewriteP2L ⟨["c"], [], [("t", "t")], [("t", [("x", "PHYS_X")])]⟩ none
        ⟨"c", "x"⟩ = ⟨"c", "x"⟩ :=
  cte_refs_untouched_amended.1
    ⟨["c"], [], [("t", "t")], [("t", [("x", "PHYS_X")])]⟩ none ⟨"c", "x"⟩
    (by decide) (by decide)

/-! ## Claim C6 -/

theorem mem_dkeys_dinsert {β : Type} {m : List (String × β)} {k n : String}
    {v : β} (h : n ∈ dkeys (dinsert m k v)) : n ∈ dkeys m ∨ n = k := by
  unfold dinsert at h
  by_cases ha : m.any (fun p => p.1 == k)
  · rw [if_pos ha] at h
    unfold dkeys at h ⊢
    rw [List.map_map] at h
    obtain ⟨p, hp, hpe⟩ := List.mem_map.mp h
    by_cases hk : p.1 == k
    · right
      simp only [Function.comp_apply, if_pos hk] at hpe
      exact hpe.symm
    · left
      simp only [Function.comp_apply, if_neg hk] at hpe
      exact hpe ▸ List.mem_map_of_mem _ hp
  · rw [if_neg ha] at h
    unfold dkeys at h ⊢
    rw [List.map_append] at h
    rcases List.mem_append.mp h with h1 | h1
    · exact Or.inl h1
    · right
      simpa using h1

theorem l2p_fold_keys (ts : List ModelTable) (acc : List (String × String))
    (n : String)
    (h : n ∈ dkeys (ts.foldl
      (fun mapping t =>
        match t.base_table with
        | none => mapping
        | some bt =>
          if completeEntry t.name bt then dinsert mapping t.name (fqnOf bt)
          else mapping)
      acc)) :
    n ∈ dkeys acc ∨ ∃ t ∈ ts, t.name = n ∧
      ∃ bt, t.base_table = some bt ∧ completeEntry t.name bt = true := by
  induction ts generalizing acc with
  | nil => exact Or.inl h
  | cons t ts ih =>
    rw [List.foldl_cons] at h
    rcases ih _ h with h1 | ⟨t', ht', h1, bt, hbt, hc⟩
    · cases hbt : t.base_table with
      | none =>
        rw [hbt] at h1
        exact Or.inl h1
      | some bt =>
        rw [hbt] at h1
        dsimp only at h1
        by_cases hc : completeEntry t.name bt
        · rw [if_pos hc] at h1
          rcases mem_dkeys_dinsert h1 with h2 | h2
          · exact Or.inl h2
          · exact Or.inr ⟨t, List.mem_cons_self t ts, h2.symm, bt, hbt, hc⟩
        · rw [if_neg hc] at h1
          exact Or.inl h1
    · exact Or.inr ⟨t', List.mem_cons_of_mem t ht', h1, bt, hbt, hc⟩

/-- C6 counterexample: a table named `t` with an incomplete physical
reference (empty `database`) but a usable dimension entry is excluded from
the table mapping, yet still contributes its entry to the column mapping —
so the column mapping's key set is not a subset of the table mapping's key
set. -/
theorem column_mapping_not_subset_counterexample :
    build_logical_to_physical_mapping
        ⟨[⟨"t", some ⟨"", "S", "P"⟩, [⟨"x", "X"⟩], [], [], [], []⟩]⟩ = [] ∧
    dkeys (build_logical_to_physical_column_mapping
        ⟨[⟨"t", some ⟨"", "S", "P"⟩, [⟨"x", "X"⟩], [], [], [], []⟩]⟩) =
      ["t"] := by
  exact ⟨rfl, rfl⟩

/-- C6 (amended): every key of the logical→physical table mapping comes
from a table carrying a complete physical reference — so a table lacking
one contributes no table-mapping entry itself; but the column mapping is
built independently of `base_table`, so such a table still contributes a
column-mapping entry whenever it has a usable column (see the
counterexample), and the column mapping's key set need not be a subset of
the table mapping's key set. -/
theorem table_mapping_exclusion_amended (m : SemanticModel) (n : String)
    (h : n ∈ dkeys (build_logical_to_physical_mapping m)) :
    ∃ t ∈ m.tables, t.name = n ∧
      ∃ bt, t.base_table = some bt ∧ completeEntry t.name bt = true := by
  rcases l2p_fold_keys m.tables [] n h with h1 | h1
  · simp [dkeys] at h1
  · exact h1

/-- C6 witness: the amended theorem applied to the mapping built from a
document with one complete table. -/
theorem table_mapping_exclusion_witness :
    "t" ∈ dkeys (build_logical_to_physical_mapping
        ⟨[⟨"t", some ⟨"D", "S", "P"⟩, [], [], [], [], []⟩]⟩) ∧
    ∃ t ∈ (⟨[⟨"t", some ⟨"D", "S", "P"⟩, [], [], [], [], []⟩]⟩ :
        SemanticModel).tables, t.name = "t" ∧
      ∃ bt, t.base_table = some bt ∧ completeEntry t.name bt = true :=
  ⟨by decide,
    table_mapping_exclusion_amended
      ⟨[⟨"t", some ⟨"D", "S", "P"⟩, [], [], [], [], []⟩]⟩ "t" (by decide)⟩

/-! ## Claim C7 -/

theorem build_fqn_ne_empty (t : TableNode) (h : t.name ≠ "") :
    build_fqn_from_table_node t ≠ "" := by
  unfold build_fqn_from_table_node
  have hlen : ∀ s u : String, (s ++ "." ++ u) ≠ "" := by
    intro s u he
    have hl := congrArg String.length he
    rw [String.length_append, String.length_append,
      show (".".length) = 1 from rfl, show ("".length) = 0 from rfl] at hl
    omega
  split_ifs with h1 h2 h3
  · exact hlen _ _
  · exact hlen _ _
  · exact h
  · intro hfalse
    apply h3
    simp at h ⊢
    exact h

/-- C7 counterexample: with the reverse mapping built from a document
mapping logical `n` to physical `D.S.P`, a bare table reference `P` (its
bare physical table name) is left unchanged, and so is a bare reference
`n` (its logical name): the physical→logical table pass only matches the
single FQN string assembled from the node's parts against the mapping's
full FQN keys, so neither of the claim's second and third priority matches
exists. -/
theorem p2l_bare_name_counterexample :
    dget (build_physical_to_logical_mapping
        ⟨[⟨"n", some ⟨"D", "S", "P"⟩, [], [], [], [], []⟩]⟩) "D.S.P" =
      some "n" ∧
    tblRewriteP2L []
        (build_physical_to_logical_mapping
          ⟨[⟨"n", some ⟨"D", "S", "P"⟩, [], [], [], [], []⟩]⟩)
        ⟨"", "", "P", ""⟩ = ⟨"", "", "P", ""⟩ ∧
    tblRewriteP2L []
        (build_physical_to_logical_mapping
          ⟨[⟨"n", some ⟨"D", "S", "P"⟩, [], [], [], [], []⟩]⟩)
        ⟨"", "", "n", ""⟩ = ⟨"", "", "n", ""⟩ := by
  exact ⟨rfl, rfl, rfl⟩

/-- C7 (amended): a non-CTE table reference node is matched by looking up
the one FQN string assembled from its present parts (`catalog.db.name`,
`db.name`, or the bare name) case-insensitively among the mapping's keys —
which are full physical FQNs — and on a hit its catalog and schema are
cleared and its name replaced by the logical table name; there is no
separate match by logical name or by bare physical table name in the
table pass (that three-way tolerance exists only in the column passes'
table-context lookup dicts). -/
theorem p2l_table_match_amended (cte : List String)
    (rm : List (String × String)) (t : TableNode)
    (h1 : t.name ≠ "") (h2 : t.name ∉ cte) :
    tblRewriteP2L cte rm t =
      match case_insensitive_lookup (build_fqn_from_table_node t) rm with
      | some logical_name => ⟨"", "", logical_name, t.tblAlias⟩
      | none => t := by
  unfold tblRewriteP2L
  have hg : (decide (t.name = "") || cte.contains t.name) = false := by
    rw [Bool.or_eq_false_iff]
    constructor
    · exact decide_eq_false h1
    · by_cases hc : cte.contains t.name = true
      · exact absurd (List.mem_of_elem_eq_true hc) h2
      · exact Bool.eq_false_iff.mpr (fun he => hc he)
  rw [hg]
  simp only [Bool.false_eq_true, if_false]
  rw [if_neg (build_fqn_ne_empty t h1)]

/-- C7 witness: the amended theorem applied to a fully qualified reference
`D.S.P` that the mapping sends to logical `n`. -/
theorem p2l_table_match_witness :
    tblRewriteP2L [] [("D.S.P", "n")] ⟨"D", "S", "P", ""⟩ =
      ⟨"", "", "n", ""⟩ := by
  have h := p2l_table_match_amended [] [("D.S.P", "n")] ⟨"D", "S", "P", ""⟩
    (by decide) (by simp)
  exact h.trans (by rfl)

/-! ## Claim C10 -/

/-- The physical FQN a table contributes to the mappings (`""` when it has
no `base_table`). -/
def physicalOf (t : ModelTable) : String :=
  match t.base_table with
  | some bt => fqnOf bt
  | none => ""

theorem dinsert_eq_append {β : Type} {m : List (String × β)} {k : String}
    (v : β) (h : k ∉ dkeys m) : dinsert m k v = m ++ [(k, v)] := by
  unfold dinsert
  rw [if_neg ?hc]
  case hc =>
    intro hany
    obtain ⟨p, hp, hpk⟩ := List.any_eq_true.mp hany
    exact h (by
      unfold dkeys
      exact (eq_of_beq hpk) ▸ List.mem_map_of_mem _ hp)

theorem l2p_fold_eq_map (ts : List ModelTable) (acc : List (String × String))
    (hcomp : ∀ t ∈ ts, ∃ bt, t.base_table = some bt ∧
      completeEntry t.name bt = true)
    (hnd : (ts.map (·.name)).Nodup)
    (hfresh : ∀ t ∈ ts, t.name ∉ dkeys acc) :
    ts.foldl
      (fun mapping t =>
        match t.base_table with
        | none => mapping
        | some bt =>
          if completeEntry t.name bt then dinsert mapping t.name (fqnOf bt)
          else mapping)
      acc = acc ++ ts.map (fun t => (t.name, physicalOf t)) := by
  induction ts generalizing acc with
  | nil => simp
  | cons t ts ih =>
    obtain ⟨bt, hbt, hc⟩ := hcomp t (List.mem_cons_self t ts)
    rw [List.foldl_cons, List.map_cons]
    have hstep : (match t.base_table with
        | none => acc
        | some bt =>
          if completeEntry t.name bt then dinsert acc t.name (fqnOf bt)
          else acc) = acc ++ [(t.name, fqnOf bt)] := by
      rw [hbt]
      dsimp only
      rw [if_pos hc, dinsert_eq_append _ (hfresh t (List.mem_cons_self t ts))]
    rw [hstep]
    have hphys : physicalOf t = fqnOf bt := by
      unfold physicalOf
      rw [hbt]
    rw [hphys]
    rw [ih (acc ++ [(t.name, fqnOf bt)])
      (fun t' ht' => hcomp t' (List.mem_cons_of_mem t ht'))
      (List.nodup_cons.mp hnd).2 ?hfr]
    · rw [List.append_assoc]
      rfl
    case hfr =>
      intro t' ht'
      unfold dkeys
      rw [List.map_append, List.mem_append]
      rintro (hmem | hmem)
      · exact hfresh t' (List.mem_cons_of_mem t ht') hmem
      · simp at hmem
        apply (List.nodup_cons.mp hnd).1
        show t.name ∈ List.map (fun x => x.name) ts
        rw [← hmem]
        exact List.mem_map_of_mem _ ht'

theorem p2l_fold_eq_map (ts : List ModelTable) (acc : List (String × String))
    (hcomp : ∀ t ∈ ts, ∃ bt, t.base_table = some bt ∧
      completeEntry t.name bt = true)
    (hnd : (ts.map physicalOf).Nodup)
    (hfresh : ∀ t ∈ ts, physicalOf t ∉ dkeys acc) :
    ts.foldl
      (fun mapping t =>
        match t.base_table with
        | none => mapping
        | some bt =>
          if completeEntry t.name bt then dinsert mapping (fqnOf bt) t.name
          else mapping)
      acc = acc ++ ts.map (fun t => (physicalOf t, t.name)) := by
  induction ts generalizing acc with
  | nil => simp
  | cons t ts ih =>
    obtain ⟨bt, hbt, hc⟩ := hcomp t (List.mem_cons_self t ts)
    rw [List.foldl_cons, List.map_cons]
    have hphys : physicalOf t = fqnOf bt := by
      unfold physicalOf
      rw [hbt]
    have hstep : (match t.base_table with
        | none => acc
        | some bt =>
          if completeEntry t.name bt then dinsert acc (fqnOf bt) t.name
          else acc) = acc ++ [(fqnOf bt, t.name)] := by
      rw [hbt]
      dsimp only
      rw [if_pos hc,
        dinsert_eq_append _ (hphys ▸ hfresh t (List.mem_cons_self t ts))]
    rw [hstep, hphys]
    rw [ih (acc ++ [(fqnOf bt, t.name)])
      (fun t' ht' => hcomp t' (List.mem_cons_of_mem t ht'))
      (List.nodup_cons.mp hnd).2 ?hfr]
    · rw [List.append_assoc]
      rfl
    case hfr =>
      intro t' ht'
      unfold dkeys
      rw [List.map_append, List.mem_append]
      rintro (hmem | hmem)
      · exact hfresh t' (List.mem_cons_of_mem t ht') hmem
      · simp at hmem
        apply (List.nodup_cons.mp hnd).1
        show physicalOf t ∈ List.map physicalOf ts
        rw [hphys, ← hmem]
        exact List.mem_map_of_mem _ ht'

theorem dget_of_mem_nodup {β : Type} {m : List (String × β)}
    (hnd : (dkeys m).Nodup) {k : String} {v : β} (hmem : (k, v) ∈ m) :
    dget m k = some v := by
  induction m with
  | nil => simp at hmem
  | cons p rest ih =>
    unfold dkeys at hnd
    rw [List.map_cons] at hnd
    by_cases hk : (p.1 == k) = true
    · have hp : dget (p :: rest) k = some p.2 := by
        unfold dget
        rw [List.find?_cons, hk]
        rfl
      rw [hp]
      rcases List.mem_cons.mp hmem with he | ht
      · rw [← he]
      · exfalso
        apply (List.nodup_cons.mp hnd).1
        rw [eq_of_beq hk]
        exact List.mem_map_of_mem _ ht
    · have hkf : (p.1 == k) = false := by
        cases hq : (p.1 == k)
        · rfl
        · exact absurd hq hk
      have hp : dget (p :: rest) k = dget rest k := by
        unfold dget
        rw [List.find?_cons, hkf]
      rw [hp]
      rcases List.mem_cons.mp hmem with he | ht
      · exfalso
        apply hk
        rw [← he]
        exact beq_self_eq_true k
      · exact ih (List.nodup_cons.mp hnd).2 ht

/-- C10: when every table of the document has a complete physical
reference and both the logical names and the physical FQNs are pairwise
distinct, the logical→physical and physical→logical table mappings are
mutual inverses: the reverse mapping sends the physical FQN of every
forward entry back to its logical name, and vice versa. -/
theorem mappings_mutual_inverse (m : SemanticModel)
    (hcomp : ∀ t ∈ m.tables, ∃ bt, t.base_table = some bt ∧
      completeEntry t.name bt = true)
    (hn : (m.tables.map (·.name)).Nodup)
    (hf : (m.tables.map physicalOf).Nodup) :
    (∀ n f, dget (build_logical_to_physical_mapping m) n = some f →
      dget (build_physical_to_logical_mapping m) f = some n) ∧
    (∀ f n, dget (build_physical_to_logical_mapping m) f = some n →
      dget (build_logical_to_physical_mapping m) n = some f) := by
  have hfwd : build_logical_to_physical_mapping m =
      m.tables.map (fun t => (t.name, physicalOf t)) :=
    l2p_fold_eq_map m.tables [] hcomp hn (by intro t ht; simp [dkeys])
  have hrev : build_physical_to_logical_mapping m =
      m.tables.map (fun t => (physicalOf t, t.name)) :=
    p2l_fold_eq_map m.tables [] hcomp hf (by intro t ht; simp [dkeys])
  have hkfwd : (dkeys (build_logical_to_physical_mapping m)).Nodup := by
    rw [hfwd]
    unfold dkeys
    rw [List.map_map]
    exact hn
  have hkrev : (dkeys (build_physical_to_logical_mapping m)).Nodup := by
    rw [hrev]
    unfold dkeys
    rw [List.map_map]
    exact hf
  constructor
  · intro n f h
    have hm := dget_mem h
    rw [hfwd] at hm
    obtain ⟨t, ht, he⟩ := List.mem_map.mp hm
    have hn' : t.name = n := congrArg Prod.fst he
    have hf' : physicalOf t = f := congrArg Prod.snd he
    apply dget_of_mem_nodup hkrev
    rw [hrev, ← hn', ← hf']
    exact List.mem_map_of_mem _ ht
  · intro f n h
    have hm := dget_mem h
    rw [hrev] at hm
    obtain ⟨t, ht, he⟩ := List.mem_map.mp hm
    have hf' : physicalOf t = f := congrArg Prod.fst he
    have hn' : t.name = n := congrArg Prod.snd he
    apply dget_of_mem_nodup hkfwd
    rw [hfwd, ← hn', ← hf']
    exact List.mem_map_of_mem _ ht

/-- C10 witness: the inverse property applied to a two-table document. -/
theorem mappings_mutual_inverse_witness :
    dget (build_logical_to_physical_mapping
        ⟨[⟨"a", some ⟨"D", "S", "A"⟩, [], [], [], [], []⟩,
          ⟨"b", some ⟨"D", "S", "B"⟩, [], [], [], [], []⟩]⟩) "a" =
      some "D.S.A" ∧
    dget (build_physical_to_logical_mapping
        ⟨[⟨"a", some ⟨"D", "S", "A"⟩, [], [], [], [], []⟩,
          ⟨"b", some ⟨"D", "S", "B"⟩, [], [], [], [], []⟩]⟩) "D.S.A" =
      some "a" :=
  ⟨by decide,
    (mappings_mutual_inverse
      ⟨[⟨"a", some ⟨"D", "S", "A"⟩, [], [], [], [], []⟩,
        ⟨"b", some ⟨"D", "S", "B"⟩, [], [], [], [], []⟩]⟩
      (by
        intro t ht
        rcases List.mem_cons.mp ht with he | ht2
        · exact ⟨⟨"D", "S", "A"⟩, by rw [he], by rw [he]; decide⟩
        · rcases List.mem_cons.mp ht2 with he | ht3
          · exact ⟨⟨"D", "S", "B"⟩, by rw [he], by rw [he]; decide⟩
          · simp at ht3)
      (by decide) (by decide)).1 "a" "D.S.A" (by decide)⟩

end SemanticCore
